import Mathlib

/-!
Verification of the funnel4 static site generator (funnel4.py), via a
shallow embedding of its content pipeline in Lean 4.

Conventions of the embedding:
* Python strings are Lean `String`s; `str.replace` is modelled by `pyReplace`
  (replaces every non-overlapping occurrence left to right; an empty pattern
  inserts the replacement at every boundary, as in Python).
* `os.path` helpers (`basename`, `dirname`, `splitext`, `join`) are modelled
  faithfully after posixpath.
* Dictionaries are association lists in insertion order; `dict.update` and
  `dict.setdefault(...).append(...)` are modelled by functions that preserve
  insertion-order semantics.
* Exceptions are modelled with `Except String`.
* The filesystem walk and the external docutils/jinja2 services are
  parameters (environment functions), as they are external collaborators.
-/

namespace Funnel4

/-- Auxiliary recursion (on fuel) for Python `str.replace` with a non-empty
pattern: replaces non-overlapping occurrences left to right. -/
def pyReplaceAux (old new : List Char) : Nat → List Char → List Char
  | 0, s => s
  | _ + 1, [] => []
  | fuel + 1, c :: rest =>
    if old.isPrefixOf (c :: rest) then
      new ++ pyReplaceAux old new fuel (rest.drop (old.length - 1))
    else
      c :: pyReplaceAux old new fuel rest

/-- Python `s.replace(old, new)`: replaces every non-overlapping occurrence
of `old` in `s` by `new`, scanning left to right. When `old` is empty,
Python inserts `new` at every character boundary, including both ends. -/
def pyReplace (s old new : String) : String :=
  if old.toList = [] then
    String.mk (new.toList ++ s.toList.flatMap (fun c => c :: new.toList))
  else
    String.mk (pyReplaceAux old.toList new.toList s.toList.length s.toList)

/-- posixpath.basename: the part of the path after the last slash. -/
def basename (p : String) : String :=
  String.mk ((p.toList.reverse.takeWhile (fun c => c ≠ '/')).reverse)

/-- posixpath.dirname: everything before the last slash; trailing slashes are
stripped unless the result consists only of slashes. -/
def dirname (p : String) : String :=
  let cs := p.toList
  let rev := cs.reverse
  let nameLen := (rev.takeWhile (fun c => c ≠ '/')).length
  let head := (rev.drop nameLen).reverse
  if head.all (fun c => c = '/') then
    String.mk head
  else
    String.mk ((head.reverse.dropWhile (fun c => c = '/')).reverse)

/-- The extension part of posixpath.splitext: starts at the last dot of the
basename, provided some non-dot character precedes it within the basename
(so purely dotted leading names such as `.bashrc` have no extension). -/
def splitextExt (p : String) : String :=
  let baseRev := p.toList.reverse.takeWhile (fun c => c ≠ '/')
  let extRev := baseRev.takeWhile (fun c => c ≠ '.')
  if extRev.length = baseRev.length then
    ""
  else
    let restRev := baseRev.drop (extRev.length + 1)
    if restRev.any (fun c => c ≠ '.') then
      String.mk ('.' :: extRev.reverse)
    else
      ""

/-- posixpath.join for two components. -/
def joinPath (a b : String) : String :=
  if b.toList.take 1 = ['/'] then b
  else if a.toList = [] ∨ a.toList.getLast? = some '/' then a ++ b
  else a ++ "/" ++ b

/-- Python `a.startswith(b)` on our string model. -/
def pyStartsWith (a b : String) : Bool :=
  b.toList.isPrefixOf a.toList

/-- Python `a.endswith(b)` on our string model. -/
def pyEndsWith (a b : String) : Bool :=
  b.toList.isSuffixOf a.toList

/-- `Website._relative_filename`: `full.replace(src_path, "").lstrip("/")`. -/
def relative_filename (src_path full : String) : String :=
  String.mk ((pyReplace full src_path "").toList.dropWhile (fun c => c = '/'))

/-- `Website._href`: public URL for a document.  Files literally named
`index.html` map to their directory (with the source root replaced by `/`),
slash-terminated; all other files have the source root stripped and their
extension substring-replaced by `.html`. -/
def href (src_path full : String) : String :=
  if basename full = "index.html" then
    dirname (pyReplace full src_path "/") ++ "/"
  else
    pyReplace (pyReplace full src_path "") (splitextExt full) ".html"

/-- The four handling classes assigned by the walker in
`Website.generate_static_pages`. -/
inductive FileClass where
  | Partial
  | StaticAsset
  | BlogDocument
  | Document
deriving DecidableEq, Repr

/-- Classification of one walked file, mirroring the branch structure of
`Website.generate_static_pages`: `rel` is the relative filename and `file`
the bare filename produced by `os.walk`. -/
def classify (rel file : String) : FileClass :=
  if pyStartsWith rel "templates/" then .Partial
  else if pyStartsWith rel "static/" then .StaticAsset
  else if pyStartsWith file "_" && pyEndsWith file ".html" then .Partial
  else if pyStartsWith rel "blog/" then .BlogDocument
  else .Document

/-- One start tag delivered by the HTML tokenizer to
`MetaParser.handle_starttag`: the tag name and the attribute list, each
attribute value possibly absent (Python `None`). -/
structure TagEvent where
  tag : String
  attrs : List (String × Option String)
deriving DecidableEq, Repr

/-- Python `dict(attrs).get(k, None)`: with duplicate attribute names the
later pair wins, and an attribute present with value `None` yields `None`. -/
def attrsGet (attrs : List (String × Option String)) (k : String) : Option String :=
  (attrs.reverse.lookup k).join

/-- The `ValueError` message raised by `MetaParser.handle_starttag` on a
duplicated metadata name. -/
def dupKeyMsg (name : String) : String :=
  "name " ++ name ++ " is specified multiple times in the metadata"

/-- `MetaParser.handle_starttag` acting on the accumulated metadata
association list: non-`meta` tags and `meta` tags lacking a `name` or
`content` attribute are ignored; a repeated `name` raises `ValueError`. -/
def handle_starttag (metadata : List (String × String)) (ev : TagEvent) :
    Except String (List (String × String)) :=
  if ev.tag ≠ "meta" then .ok metadata
  else
    match attrsGet ev.attrs "name", attrsGet ev.attrs "content" with
    | some name, some content =>
      if (metadata.lookup name).isSome then .error (dupKeyMsg name)
      else .ok (metadata ++ [(name, content)])
    | some _, none => .ok metadata
    | none, _ => .ok metadata

/-- `MetaParser` run over the whole token stream of the rendered metadata
block (`parser.feed(parts["meta"])`), starting from an empty mapping. -/
def feedMeta (events : List TagEvent) : Except String (List (String × String)) :=
  events.foldlM handle_starttag []

/-- A start-tag event that contributes the metadata name `n`: a `meta` tag
whose `name` attribute is `n` and whose `content` attribute is present. -/
def isMetaNamed (n : String) (ev : TagEvent) : Bool :=
  ev.tag == "meta" && attrsGet ev.attrs "name" == some n
    && (attrsGet ev.attrs "content").isSome

/-- A value stored in a rendered document's context dictionary: metadata
values and the special `html_body`/`href` entries are strings, the nested
`metadata` entry is a mapping. -/
inductive CtxVal where
  | str : String → CtxVal
  | dict : List (String × String) → CtxVal
deriving DecidableEq, Repr

/-- The context dictionary built by `Website._rst_j2context`: the parsed
metadata pairs flattened in, then the `html_body`, nested `metadata`, and
`href` entries layered on top. -/
structure Ctx where
  metadata : List (String × String)
  html_body : String
  href : String
deriving DecidableEq, Repr

/-- Dictionary lookup on a context: the three special keys shadow any
metadata entry of the same name (they were updated in last). -/
def ctxGet (c : Ctx) (k : String) : Option CtxVal :=
  if k = "html_body" then some (.str c.html_body)
  else if k = "metadata" then some (.dict c.metadata)
  else if k = "href" then some (.str c.href)
  else (c.metadata.lookup k).map .str

/-- Python `key in context` for the context dictionary. -/
def ctxHasKey (c : Ctx) (k : String) : Bool :=
  (ctxGet c k).isSome

/-- Python truthiness of an optional context value: absent keys and empty
strings/mappings are falsy. -/
def truthy : Option CtxVal → Bool
  | none => false
  | some (.str s) => s.toList ≠ []
  | some (.dict d) => d ≠ []

/-- A post survives the draft filter of `generate_blog_feeds` when
`post.get("draft")` is falsy. -/
def nonDraft (c : Ctx) : Bool :=
  ! truthy (ctxGet c "draft")

/-- The sort key used by `discover_blog_posts`: `post["created_at"]`.
Discovery guarantees the key is present; the default only makes the
function total. -/
def ckey (c : Ctx) : String :=
  ((c.metadata.lookup "created_at").getD "")

/-- The sequence of Unicode code points of a context's `created_at` key;
Python compares strings lexicographically by code point. -/
def ckeyCodes (c : Ctx) : List Nat :=
  (ckey c).data.map Char.toNat

/-- Lexicographic less-or-equal on code-point sequences, as Python string
comparison behaves. -/
def pyCharsLe : List Nat → List Nat → Bool
  | [], _ => true
  | _ :: _, [] => false
  | c :: cs, d :: ds =>
    if c < d then true else if d < c then false else pyCharsLe cs ds

/-- Descending order on `created_at` keys, the order every blog bucket is
sorted in (`posts.sort(key=..., reverse=True)`). -/
def createdDesc (a b : Ctx) : Prop :=
  pyCharsLe (ckeyCodes b) (ckeyCodes a) = true

instance : DecidableRel createdDesc := fun a b =>
  inferInstanceAs (Decidable (_ = true))

instance : IsTotal Ctx createdDesc := by
  constructor
  intro a b
  rw [createdDesc, createdDesc]
  generalize ckeyCodes a = x
  generalize ckeyCodes b = y
  induction y generalizing x with
  | nil => left; rfl
  | cons d ds ih =>
    cases x with
    | nil => right; rfl
    | cons c cs =>
      simp only [pyCharsLe]
      by_cases h1 : d < c
      · left
        rw [if_pos h1]
      · by_cases h2 : c < d
        · right
          rw [if_pos h2]
        · rw [if_neg h1, if_neg h2, if_neg h2, if_neg h1]
          exact ih cs

instance : IsTrans Ctx createdDesc := by
  constructor
  have H : ∀ x y z : List Nat, pyCharsLe x y = true → pyCharsLe y z = true →
      pyCharsLe x z = true := by
    intro x
    induction x with
    | nil => intro y z _ _; rfl
    | cons c cs ih =>
      intro y z hxy hyz
      cases y with
      | nil => simp [pyCharsLe] at hxy
      | cons d ds =>
        cases z with
        | nil => simp [pyCharsLe] at hyz
        | cons e es =>
          simp only [pyCharsLe] at hxy hyz ⊢
          by_cases h1 : c < d
          · by_cases h2 : d < e
            · rw [if_pos (show c < e by omega)]
            · by_cases h3 : e < d
              · rw [if_neg h2, if_pos h3] at hyz
                simp at hyz
              · rw [if_pos (show c < e by omega)]
          · by_cases h4 : d < c
            · rw [if_neg h1, if_pos h4] at hxy
              simp at hxy
            · by_cases h2 : d < e
              · rw [if_pos (show c < e by omega)]
              · by_cases h3 : e < d
                · rw [if_neg h2, if_pos h3] at hyz
                  simp at hyz
                · rw [if_neg (show ¬ c < e by omega),
                    if_neg (show ¬ e < c by omega)]
                  rw [if_neg h1, if_neg h4] at hxy
                  rw [if_neg h2, if_neg h3] at hyz
                  exact ih ds es hxy hyz
  intro a b c hab hbc
  rw [createdDesc] at hab hbc ⊢
  exact H _ _ _ hbc hab

/-- Python's stable `list.sort(key=lambda post: post["created_at"],
reverse=True)`: a stable descending sort. -/
def sortByCreatedDesc (l : List Ctx) : List Ctx :=
  l.insertionSort createdDesc

/-- The slicing loop `[all_posts[i:i+n] for i in range(0, len(all_posts), n)]`:
contiguous chunks of size `n`, the last possibly shorter. -/
def chunkList (n : Nat) (l : List Ctx) : List (List Ctx) :=
  if h : n = 0 ∨ l = [] then []
  else l.take n :: chunkList n (l.drop n)
termination_by l.length
decreasing_by
  push_neg at h
  have h1 : l.length ≠ 0 := fun hl => h.2 (List.eq_nil_of_length_eq_zero hl)
  simp only [List.length_drop]
  omega

/-- The page list of `generate_blog_feeds`: chunks of the (already
filtered) post list, with a single empty page substituted when there are
no pages at all. -/
def paginate (n : Nat) (posts : List Ctx) : List (List Ctx) :=
  if chunkList n posts = [] then [[]] else chunkList n posts

/-- The pages produced by `generate_blog_feeds` for a raw post list:
drafts filtered out first, then paginated. -/
def feedPages (n : Nat) (allPosts : List Ctx) : List (List Ctx) :=
  paginate n (allPosts.filter nonDraft)

/-- One configured feed (`{"template": ..., "path": ...}`). -/
structure FeedCfg where
  template : String
  path : String
deriving DecidableEq, Repr

/-- The template context built for one feed page. -/
structure PageCtx where
  page_num : Nat
  num_pages : Nat
  posts : List Ctx
  category : String
deriving DecidableEq, Repr

/-- One file write performed by `generate_blog_feeds`, recording the output
path, the rendered data, the page number of the loop iteration that issued
it, and whether it was the extra `index{ext}` write. -/
structure WriteRec where
  wpath : String
  wdata : String
  wpage : Nat
  windex : Bool
deriving DecidableEq, Repr

/-- The sequence of file writes performed by `generate_blog_feeds`, given
the template-expansion service `render`, the output root, the configured
feeds, the page size, and the (unfiltered) `__all__` post list. -/
def generate_blog_feeds (render : String → PageCtx → String)
    (out_path : String) (feeds : List FeedCfg) (n : Nat)
    (allPosts : List Ctx) : List WriteRec :=
  let pages := feedPages n allPosts
  pages.enum.flatMap (fun ip =>
    feeds.flatMap (fun feed =>
      let page_num := ip.1 + 1
      let ext := splitextExt feed.template
      let data := render feed.template
        ⟨page_num, pages.length, ip.2, "__all__"⟩
      ⟨joinPath (joinPath out_path feed.path)
          (toString page_num ++ ext), data, page_num, false⟩ ::
      (if page_num = 1 then
        [⟨joinPath (joinPath out_path feed.path)
            ("index" ++ ext), data, page_num, true⟩]
      else [])))

/-- The `KeyError` message raised by `discover_blog_posts` for a blog
document missing a required metadata key. -/
def reqKeyMsg (file key : String) : String :=
  file ++ " doesn\x27t define " ++ key ++ " in the metadata when it is required"

/-- The required-metadata loop of `discover_blog_posts`: `created_at` is
checked before `title`, and the first missing key raises `KeyError`. -/
def checkRequired (file : String) (c : Ctx) : Except String Unit :=
  if ctxHasKey c "created_at" = false then .error (reqKeyMsg file "created_at")
  else if ctxHasKey c "title" = false then .error (reqKeyMsg file "title")
  else .ok ()

/-- `blog_posts.setdefault(key, []).append(c)` on an insertion-ordered
association list (also models the plain `blog_posts[key].append(c)` used
for `__all__`, whose key always exists). -/
def setdefaultAppend (m : List (String × List Ctx)) (k : String) (c : Ctx) :
    List (String × List Ctx) :=
  match m with
  | [] => [(k, [c])]
  | (k0, l) :: rest =>
    if k0 = k then (k0, l ++ [c]) :: rest
    else (k0, l) :: setdefaultAppend rest k c

/-- The accumulation loop of `discover_blog_posts` over the walked blog
files (each given with its extracted context): validates required keys,
then appends each context to `__all__` and to its directory bucket. -/
def discoverLoop (files : List (String × Ctx))
    (acc : List (String × List Ctx)) :
    Except String (List (String × List Ctx)) :=
  match files with
  | [] => .ok acc
  | (p, c) :: rest =>
    match checkRequired p c with
    | .error e => .error e
    | .ok _ =>
      discoverLoop rest
        (setdefaultAppend (setdefaultAppend acc "__all__" c) (dirname p) c)

/-- `Website.discover_blog_posts`, as a function of the walked blog files
paired with their extracted contexts: accumulate into `__all__` and
per-directory buckets, then sort every bucket by `created_at` descending. -/
def discover_blog_posts (files : List (String × Ctx)) :
    Except String (List (String × List Ctx)) :=
  (discoverLoop files [("__all__", [])]).map
    (fun m => m.map (fun kv => (kv.1, sortByCreatedDesc kv.2)))

/-- A walked file contributes to bucket `k`: every file contributes to
`__all__`, and a file contributes to its parent directory's bucket. -/
def belongsTo (k : String) (f : String × Ctx) : Bool :=
  k == "__all__" || dirname f.1 == k

/-- Appending a batch of contexts to an optional bucket: an absent bucket
stays absent when nothing is appended, and is created otherwise. -/
def extendBucket (o : Option (List Ctx)) (xs : List Ctx) : Option (List Ctx) :=
  match o, xs with
  | none, [] => none
  | o, xs => some (o.getD [] ++ xs)

/-- The outputs of the external collaborators of `_rst_j2context`:
the file read, the docutils `publish_parts` call (yielding the `meta`
fragment and the `html_body`), and the `HTMLParser` tokenizer that turns
the `meta` fragment into start-tag events. -/
structure ExtractorEnv where
  readFile : String → String
  publishMeta : String → String → String
  publishBody : String → String → String
  tokenize : String → List TagEvent

/-- `Website._rst_j2context` with the cache state passed explicitly.
Returns the result (or the metadata `ValueError`), the cache after the
call, and how many times the read-and-convert work was performed (0 on a
cache hit, 1 otherwise).  As in the source, the computed context is never
inserted into the cache. -/
def rst_j2context (env : ExtractorEnv) (src_path : String)
    (cache : List (String × Ctx)) (full_filename : String) :
    Except String Ctx × List (String × Ctx) × Nat :=
  match cache.lookup full_filename with
  | some ctx => (.ok ctx, cache, 0)
  | none =>
    let rst := env.readFile full_filename
    match feedMeta (env.tokenize (env.publishMeta rst full_filename)) with
    | .error e => (.error e, cache, 1)
    | .ok md =>
      (.ok ⟨md, env.publishBody rst full_filename,
        href src_path full_filename⟩, cache, 1)

/-- A configuration value: strings, numbers, nested dictionaries, lists. -/
inductive CVal where
  | str : String → CVal
  | nat : Nat → CVal
  | dict : List (String × CVal) → CVal
  | list : List CVal → CVal

/-- Association-list lookup for configuration dictionaries. -/
def cfgLookup (k : String) : List (String × CVal) → Option CVal
  | [] => none
  | (k0, v) :: rest => if k0 = k then some v else cfgLookup k rest

/-- Setting one key of a Python dict: replace the value in place if the key
exists, otherwise append the new entry. -/
def cfgSet (d : List (String × CVal)) (k : String) (v : CVal) :
    List (String × CVal) :=
  match d with
  | [] => [(k, v)]
  | (k0, v0) :: rest =>
    if k0 = k then (k0, v) :: rest
    else (k0, v0) :: cfgSet rest k v

/-- Python `d.update(u)`: set every entry of `u` into `d`, in order. -/
def cfgUpdate (d u : List (String × CVal)) : List (String × CVal) :=
  u.foldl (fun acc kv => cfgSet acc kv.1 kv.2) d

/-- The default configuration dictionary built in `Website.__init__`. -/
def defaultConfig (basedir : String) : List (String × CVal) :=
  [("src_path", .str (joinPath basedir "src")),
   ("out_path", .str (joinPath basedir "out")),
   ("blog", .dict
     [("post_template", .str "templates/_blog_post.html"),
      ("posts_per_page", .nat 4),
      ("feeds", .list
        [.dict [("template", .str "templates/_blog_index.html"),
                ("path", .str "blog/index")],
         .dict [("template", .str "templates/_blog_feed.xml"),
                ("path", .str "blog/feed")]])])]

/-- The configuration after `Website.__init__`:
`self.config.update(config)` over the defaults. -/
def websiteConfig (basedir : String) (user : List (String × CVal)) :
    List (String × CVal) :=
  cfgUpdate (defaultConfig basedir) user

/-- `old` occurs nowhere in `s` as a contiguous substring starting before
position `s.length` (for non-empty `old`, this is substring freedom). -/
def noListOccur (old s : List Char) : Prop :=
  ∀ i, i < s.length → old.isPrefixOf (s.drop i) = false

instance (old s : List Char) : Decidable (noListOccur old s) :=
  inferInstanceAs (Decidable (∀ i, i < s.length → _ = false))

/-! ### Lemmas about the string-replace model -/

theorem pyReplaceAux_no_occur (old new : List Char) :
    ∀ (fuel : Nat) (s : List Char), noListOccur old s →
      pyReplaceAux old new fuel s = s := by
  intro fuel
  induction fuel with
  | zero => intro s _; rfl
  | succ f ih =>
    intro s hs
    match s with
    | [] => rfl
    | c :: rest =>
      have h0 : old.isPrefixOf (c :: rest) = false := hs 0 (by simp)
      rw [pyReplaceAux, h0]
      simp only [Bool.false_eq_true, if_false, List.cons.injEq, true_and]
      exact ih rest (fun i hi => by
        have := hs (i + 1) (by simpa using Nat.succ_lt_succ hi)
        simpa [List.drop_succ_cons] using this)

theorem pyReplaceAux_occur_at_end (old new : List Char) (h : old ≠ []) :
    ∀ (stem : List Char) (fuel : Nat), stem.length + old.length ≤ fuel →
      (∀ i, i < stem.length → old.isPrefixOf ((stem ++ old).drop i) = false) →
      pyReplaceAux old new fuel (stem ++ old) = stem ++ new := by
  intro stem
  induction stem with
  | nil =>
    intro fuel hf _
    obtain ⟨c, old2, rfl⟩ : ∃ c old2, old = c :: old2 := by
      cases old with
      | nil => exact absurd rfl h
      | cons c o => exact ⟨c, o, rfl⟩
    obtain ⟨f, rfl⟩ : ∃ f, fuel = f + 1 := by
      cases fuel with
      | zero =>
        simp only [List.length_nil, List.length_cons, Nat.zero_add,
          Nat.le_zero] at hf
        omega
      | succ f => exact ⟨f, rfl⟩
    rw [List.nil_append, pyReplaceAux]
    have hpre : (c :: old2).isPrefixOf (c :: old2) = true := by
      simp [List.isPrefixOf_iff_prefix]
    simp only [hpre, if_true, List.length_cons, Nat.add_sub_cancel,
      List.drop_length, List.nil_append]
    cases f <;> simp [pyReplaceAux]
  | cons c stem2 ih =>
    intro fuel hf hocc
    obtain ⟨f, rfl⟩ : ∃ f, fuel = f + 1 := by
      cases fuel with
      | zero =>
        simp only [List.length_cons, Nat.le_zero] at hf
        omega
      | succ f => exact ⟨f, rfl⟩
    have h0 : old.isPrefixOf (c :: (stem2 ++ old)) = false := by
      have := hocc 0 (by simp)
      simpa using this
    rw [List.cons_append, pyReplaceAux]
    simp only [h0, Bool.false_eq_true, if_false, List.cons_append,
      List.cons.injEq, true_and]
    exact ih f (by simp only [List.length_cons] at hf; omega) (fun i hi => by
      have := hocc (i + 1) (by simpa using Nat.succ_lt_succ hi)
      simpa [List.drop_succ_cons] using this)

theorem pyReplace_of_prefix (src b new : String) (hsrc : src.toList ≠ [])
    (hb : noListOccur src.toList b.toList) :
    pyReplace (src ++ b) src new = new ++ b := by
  rw [pyReplace, if_neg hsrc]
  match hs : src.toList, hsrc with
  | c :: old2, _ =>
    have hdata : (src ++ b).toList = c :: (old2 ++ b.toList) := by
      have : (src ++ b).toList = src.toList ++ b.toList := by
        simp [String.toList, String.data_append]
      rw [this, hs, List.cons_append]
    rw [hdata]
    have hlen : (c :: (old2 ++ b.toList)).length = (old2.length + b.toList.length) + 1 := by
      simp [Nat.add_comm]
    rw [hlen, pyReplaceAux]
    have hpre : (c :: old2).isPrefixOf (c :: (old2 ++ b.toList)) = true := by
      simp [List.isPrefixOf_iff_prefix, List.prefix_append]
    rw [hpre]
    simp only [if_true, List.length_cons, Nat.add_sub_cancel, List.drop_left]
    rw [pyReplaceAux_no_occur _ _ _ _ (by rw [hs] at hb; exact hb)]
    apply String.ext
    simp [String.data_append, String.toList]

theorem pyReplace_of_suffix (stem old new : String) (hold : old.toList ≠ [])
    (hocc : ∀ i, i < stem.toList.length →
      old.toList.isPrefixOf ((stem.toList ++ old.toList).drop i) = false) :
    pyReplace (stem ++ old) old new = stem ++ new := by
  rw [pyReplace, if_neg hold]
  have hdata : (stem ++ old).toList = stem.toList ++ old.toList := by
    simp [String.toList, String.data_append]
  rw [hdata, pyReplaceAux_occur_at_end _ _ hold _ _ (by simp) hocc]
  apply String.ext
  simp [String.data_append, String.toList]

/-! ### Lemmas about the configuration dictionary model -/

theorem cfgLookup_cfgSet_self (d : List (String × CVal)) (k : String)
    (v : CVal) : cfgLookup k (cfgSet d k v) = some v := by
  induction d with
  | nil => simp [cfgSet, cfgLookup]
  | cons kv rest ih =>
    obtain ⟨k0, v0⟩ := kv
    by_cases h : k0 = k <;> simp [cfgSet, cfgLookup, h, ih]

theorem cfgLookup_cfgSet_other (d : List (String × CVal)) (k k2 : String)
    (v : CVal) (h : k2 ≠ k) :
    cfgLookup k2 (cfgSet d k v) = cfgLookup k2 d := by
  induction d with
  | nil =>
    have hne : ¬ k = k2 := fun he => h he.symm
    simp [cfgSet, cfgLookup, hne]
  | cons kv rest ih =>
    obtain ⟨k0, v0⟩ := kv
    by_cases h0 : k0 = k
    · subst h0
      have hne : ¬ k0 = k2 := fun he => h he.symm
      simp [cfgSet, cfgLookup, hne]
    · by_cases h1 : k0 = k2
      · subst h1
        simp [cfgSet, cfgLookup, h0]
      · simp [cfgSet, cfgLookup, h0, h1, ih]

theorem cfgUpdate_lookup_notmem (u : List (String × CVal)) :
    ∀ (d : List (String × CVal)) (k : String),
      (∀ kv ∈ u, kv.1 ≠ k) →
      cfgLookup k (cfgUpdate d u) = cfgLookup k d := by
  induction u with
  | nil => intro d k _; rfl
  | cons kv u2 ih =>
    intro d k hk
    obtain ⟨k0, v0⟩ := kv
    rw [cfgUpdate, List.foldl_cons]
    have h0 : k ≠ k0 := fun he => hk (k0, v0) (by simp) he.symm
    rw [show List.foldl (fun acc kv => cfgSet acc kv.1 kv.2)
        (cfgSet d k0 v0) u2 = cfgUpdate (cfgSet d k0 v0) u2 from rfl]
    rw [ih (cfgSet d k0 v0) k (fun kv hkv => hk kv (by simp [hkv]))]
    exact cfgLookup_cfgSet_other d k0 k v0 h0

theorem cfgUpdate_lookup (u : List (String × CVal)) :
    ∀ (d : List (String × CVal)) (k : String) (v : CVal),
      (u.map Prod.fst).Nodup → cfgLookup k u = some v →
      cfgLookup k (cfgUpdate d u) = some v := by
  induction u with
  | nil => intro d k v _ hu; simp [cfgLookup] at hu
  | cons kv u2 ih =>
    intro d k v hnd hu
    obtain ⟨k0, v0⟩ := kv
    simp only [List.map_cons, List.nodup_cons] at hnd
    rw [cfgUpdate, List.foldl_cons]
    rw [show List.foldl (fun acc kv => cfgSet acc kv.1 kv.2)
        (cfgSet d k0 v0) u2 = cfgUpdate (cfgSet d k0 v0) u2 from rfl]
    by_cases h : k0 = k
    · subst h
      rw [cfgLookup, if_pos rfl] at hu
      rw [cfgUpdate_lookup_notmem u2 _ k0
        (fun kv hkv he => hnd.1 (he ▸ List.mem_map_of_mem Prod.fst hkv))]
      rw [cfgLookup_cfgSet_self]
      exact hu
    · rw [cfgLookup, if_neg h] at hu
      exact ih (cfgSet d k0 v0) k v hnd.2 hu

/-! ### Lemmas about the metadata parser -/

theorem lookup_append_singleton_ne (md : List (String × String))
    (n name : String) (c : String) (h : n ≠ name) :
    (md ++ [(name, c)]).lookup n = md.lookup n := by
  induction md with
  | nil => simp [List.lookup, beq_eq_false_iff_ne.mpr h]
  | cons kv rest ih =>
    obtain ⟨k, v⟩ := kv
    by_cases hk : n == k <;> simp [List.lookup, hk, ih]

theorem lookup_append_singleton_none (md : List (String × String))
    (n : String) (c : String) (h : md.lookup n = none) :
    (md ++ [(n, c)]).lookup n = some c := by
  induction md with
  | nil => simp [List.lookup]
  | cons kv rest ih =>
    obtain ⟨k, v⟩ := kv
    rw [List.cons_append, List.lookup]
    rw [List.lookup] at h
    cases hk : (n == k)
    · rw [hk] at h
      exact ih h
    · rw [hk] at h
      simp at h

theorem handle_ok_of_not_named (md md2 : List (String × String))
    (ev : TagEvent) (n : String) (hev : isMetaNamed n ev = false)
    (h : handle_starttag md ev = .ok md2) :
    md2.lookup n = md.lookup n := by
  by_cases htag : ev.tag = "meta"
  · cases hname : attrsGet ev.attrs "name" with
    | none =>
      simp only [handle_starttag, htag, hname] at h
      simp at h
      rw [← h]
    | some name =>
      cases hcontent : attrsGet ev.attrs "content" with
      | none =>
        simp only [handle_starttag, htag, hname, hcontent] at h
        simp at h
        rw [← h]
      | some content =>
        have hnn : name ≠ n := by
          intro he
          rw [isMetaNamed] at hev
          simp [htag, hname, hcontent, he] at hev
        by_cases hin : (md.lookup name).isSome
        · simp only [handle_starttag, htag, hname, hcontent] at h
          simp [hin] at h
        · simp only [handle_starttag, htag, hname, hcontent] at h
          simp [hin] at h
          rw [← h]
          exact lookup_append_singleton_ne md n name content
            (fun he => hnn he.symm)
  · simp only [handle_starttag] at h
    rw [if_pos htag] at h
    rw [← Except.ok.inj h]

theorem handle_ok_of_named (md md2 : List (String × String))
    (ev : TagEvent) (n : String) (hev : isMetaNamed n ev = true)
    (h : handle_starttag md ev = .ok md2) :
    md.lookup n = none ∧ (md2.lookup n).isSome = true := by
  rw [isMetaNamed, Bool.and_eq_true, Bool.and_eq_true] at hev
  obtain ⟨⟨htag, hname⟩, hcontent⟩ := hev
  have htag2 : ev.tag = "meta" := by simpa using htag
  have hname2 : attrsGet ev.attrs "name" = some n := by simpa using hname
  obtain ⟨content, hc⟩ := Option.isSome_iff_exists.mp hcontent
  simp only [handle_starttag, htag2, hname2, hc] at h
  by_cases hin : (md.lookup n).isSome
  · simp [hin] at h
  · simp [hin] at h
    have hnone : md.lookup n = none := by
      cases hm : md.lookup n with
      | none => rfl
      | some v => rw [hm] at hin; simp at hin
    refine ⟨hnone, ?_⟩
    rw [← h, lookup_append_singleton_none md n content hnone]
    rfl

theorem feedAux_ok_count (events : List TagEvent) :
    ∀ (md res : List (String × String)),
      events.foldlM handle_starttag md = .ok res → ∀ n : String,
      ((md.lookup n).isSome = true → events.countP (isMetaNamed n) = 0)
      ∧ events.countP (isMetaNamed n) ≤ 1 := by
  induction events with
  | nil => simp
  | cons ev rest ih =>
    intro md res hok n
    rw [List.foldlM_cons] at hok
    cases h : handle_starttag md ev with
    | error e =>
      rw [h] at hok
      exact absurd (show Except.error e = Except.ok res from hok) (by simp)
    | ok md2 =>
      rw [h] at hok
      replace hok : rest.foldlM handle_starttag md2 = .ok res := hok
      by_cases hev : isMetaNamed n ev = true
      · obtain ⟨hnone, hsome⟩ := handle_ok_of_named md md2 ev n hev h
        have hrest := (ih md2 res hok n).1 hsome
        constructor
        · intro hmd
          rw [hnone] at hmd
          simp at hmd
        · rw [List.countP_cons, hrest]
          simp [hev]
      · have hev2 : isMetaNamed n ev = false := by
          simpa using hev
        have heq := handle_ok_of_not_named md md2 ev n hev2 h
        have ihs := ih md2 res hok n
        constructor
        · intro hmd
          rw [List.countP_cons, ihs.1 (by rw [heq]; exact hmd)]
          simp [hev2]
        · rw [List.countP_cons]
          have := ihs.2
          simp only [hev2, Bool.false_eq_true, if_false]
          omega

/-! ### Lemmas about blog discovery -/

theorem discoverLoop_error_of_missing (files : List (String × Ctx)) :
    ∀ acc : List (String × List Ctx),
      (∃ f ∈ files, ctxHasKey f.2 "created_at" = false
        ∨ ctxHasKey f.2 "title" = false) →
      ∃ file key, (∃ c, (file, c) ∈ files ∧ ctxHasKey c key = false)
        ∧ (key = "created_at" ∨ key = "title")
        ∧ discoverLoop files acc = .error (reqKeyMsg file key) := by
  induction files with
  | nil => intro acc h; simp at h
  | cons fc rest ih =>
    intro acc h
    obtain ⟨p, c⟩ := fc
    by_cases hca : ctxHasKey c "created_at" = false
    · refine ⟨p, "created_at", ⟨c, by simp, hca⟩, Or.inl rfl, ?_⟩
      rw [discoverLoop]
      rw [show checkRequired p c = .error (reqKeyMsg p "created_at") by
        rw [checkRequired, if_pos hca]]
    · by_cases hti : ctxHasKey c "title" = false
      · refine ⟨p, "title", ⟨c, by simp, hti⟩, Or.inr rfl, ?_⟩
        rw [discoverLoop]
        rw [show checkRequired p c = .error (reqKeyMsg p "title") by
          rw [checkRequired, if_neg hca, if_pos hti]]
      · have hrest : ∃ f ∈ rest, ctxHasKey f.2 "created_at" = false
            ∨ ctxHasKey f.2 "title" = false := by
          obtain ⟨f, hf, hbad⟩ := h
          rcases List.mem_cons.mp hf with he | hm
          · exfalso
            rw [he] at hbad
            rcases hbad with hb | hb
            · exact hca hb
            · exact hti hb
          · exact ⟨f, hm, hbad⟩
        obtain ⟨file, key, ⟨c2, hmem, hmiss⟩, hkey, hloop⟩ :=
          ih (setdefaultAppend (setdefaultAppend acc "__all__" c)
            (dirname p) c) hrest
        refine ⟨file, key, ⟨c2, List.mem_cons_of_mem _ hmem, hmiss⟩, hkey, ?_⟩
        rw [discoverLoop]
        rw [show checkRequired p c = .ok () by
          rw [checkRequired, if_neg hca, if_neg hti]]
        exact hloop

/-! ### Lemmas about pagination -/

theorem chunkList_nil (n : Nat) : chunkList n [] = [] := by
  rw [chunkList]
  simp

theorem chunkList_zero (l : List Ctx) : chunkList 0 l = [] := by
  rw [chunkList]
  simp

theorem chunkList_cons (n : Nat) (l : List Ctx) (hn : n ≠ 0) (hl : l ≠ []) :
    chunkList n l = l.take n :: chunkList n (l.drop n) := by
  rw [chunkList, dif_neg (not_or.mpr ⟨hn, hl⟩)]

theorem chunkList_flatten (n : Nat) (hn : 0 < n) :
    ∀ l, (chunkList n l).flatten = l := by
  refine chunkList.induct n (fun l => (chunkList n l).flatten = l) ?_ ?_
  · intro x h
    rcases h with h | h
    · omega
    · rw [h, chunkList_nil]
      rfl
  · intro x h ih
    push_neg at h
    rw [chunkList_cons n x h.1 h.2, List.flatten_cons, ih,
      List.take_append_drop]

theorem chunkList_length_eq (n : Nat) (hn : 0 < n) :
    ∀ l : List Ctx, l ≠ [] →
      (chunkList n l).length = (l.length + n - 1) / n := by
  refine chunkList.induct n
    (fun l => l ≠ [] → (chunkList n l).length = (l.length + n - 1) / n)
    ?_ ?_
  · intro x h hx
    rcases h with h | h
    · omega
    · exact absurd h hx
  · intro x h ih _
    push_neg at h
    rw [chunkList_cons n x h.1 h.2, List.length_cons]
    by_cases hd : x.drop n = []
    · rw [hd, chunkList_nil, List.length_nil]
      have hlen : x.length ≤ n := by
        have := List.length_drop n x
        rw [hd] at this
        simp at this
        omega
      have hpos : x.length ≠ 0 := fun h0 => h.2 (List.eq_nil_of_length_eq_zero h0)
      have : (x.length + n - 1) / n = 1 := by
        apply Nat.div_eq_of_lt_le <;> omega
      omega
    · rw [ih hd]
      have hlt : n < x.length := by
        have h1 := List.length_drop n x
        have h2 : (x.drop n).length ≠ 0 :=
          fun h0 => hd (List.eq_nil_of_length_eq_zero h0)
        omega
      rw [List.length_drop]
      have heq : x.length + n - 1 = (x.length - n + n - 1) + n := by omega
      rw [heq, Nat.add_div_right _ hn]

theorem chunkList_get?_length (n : Nat) (hn : 0 < n) :
    ∀ l : List Ctx, ∀ i, i + 1 < (chunkList n l).length →
      ∀ page, (chunkList n l).get? i = some page → page.length = n := by
  refine chunkList.induct n
    (fun l => ∀ i, i + 1 < (chunkList n l).length →
      ∀ page, (chunkList n l).get? i = some page → page.length = n) ?_ ?_
  · intro x h i hi
    rcases h with h | h
    · omega
    · rw [h, chunkList_nil] at hi
      simp at hi
  · intro x h ih i hi page hpage
    push_neg at h
    rw [chunkList_cons n x h.1 h.2] at hi hpage
    match i with
    | 0 =>
      rw [List.get?_cons_zero] at hpage
      have hpg : page = x.take n := (Option.some.inj hpage).symm
      rw [List.length_cons] at hi
      have hd : x.drop n ≠ [] := by
        intro hdrop
        rw [hdrop, chunkList_nil] at hi
        simp at hi
      have hlt : n < x.length := by
        have h1 := List.length_drop n x
        have h2 : (x.drop n).length ≠ 0 :=
          fun h0 => hd (List.eq_nil_of_length_eq_zero h0)
        omega
      rw [hpg, List.length_take]
      omega
    | j + 1 =>
      rw [List.get?_cons_succ] at hpage
      rw [List.length_cons] at hi
      exact ih j (by omega) page hpage

theorem chunkList_mem_mem (n : Nat) :
    ∀ l : List Ctx, ∀ page ∈ chunkList n l, ∀ x ∈ page, x ∈ l := by
  refine chunkList.induct n
    (fun l => ∀ page ∈ chunkList n l, ∀ x ∈ page, x ∈ l) ?_ ?_
  · intro l h page hpage
    rcases h with h | h
    · rw [h, chunkList_zero] at hpage
      simp at hpage
    · rw [h, chunkList_nil] at hpage
      simp at hpage
  · intro l h ih page hpage x hx
    push_neg at h
    rw [chunkList_cons n l h.1 h.2] at hpage
    rcases List.mem_cons.mp hpage with he | hm
    · exact List.mem_of_mem_take (he ▸ hx)
    · exact List.mem_of_mem_drop (ih page hm x hx)

theorem paginate_ne_nil (n : Nat) (posts : List Ctx) :
    paginate n posts ≠ [] := by
  rw [paginate]
  split
  · exact List.cons_ne_nil _ _
  · assumption

theorem countP_mem_of_flatten_count_one (c : Ctx) :
    ∀ pages : List (List Ctx), pages.flatten.count c = 1 →
      pages.countP (fun page => decide (c ∈ page)) = 1 := by
  intro pages
  induction pages with
  | nil => intro h; simp at h
  | cons p ps ih =>
    intro h
    rw [List.flatten_cons, List.count_append] at h
    rw [List.countP_cons]
    by_cases hc : c ∈ p
    · have h1 : 0 < p.count c := List.count_pos_iff.mpr hc
      have h3 : ps.countP (fun page => decide (c ∈ page)) = 0 := by
        rw [List.countP_eq_zero]
        intro page hpage
        simp only [decide_eq_true_eq]
        intro hcpage
        have : 0 < ps.flatten.count c :=
          List.count_pos_iff.mpr (List.mem_flatten.mpr ⟨page, hpage, hcpage⟩)
        omega
      simp [hc, h3]
    · have h0 : p.count c = 0 := List.count_eq_zero.mpr hc
      rw [h0, Nat.zero_add] at h
      simp [hc, ih h]

/-! ### Lemmas about bucket accumulation -/

theorem lookup_setdefaultAppend_self (m : List (String × List Ctx))
    (k : String) (c : Ctx) :
    (setdefaultAppend m k c).lookup k = some ((m.lookup k).getD [] ++ [c]) := by
  induction m with
  | nil => simp [setdefaultAppend, List.lookup]
  | cons kv rest ih =>
    obtain ⟨k0, l⟩ := kv
    by_cases h : k0 = k
    · subst h
      simp [setdefaultAppend, List.lookup]
    · have hb : (k == k0) = false := beq_eq_false_iff_ne.mpr (Ne.symm h)
      simp [setdefaultAppend, List.lookup, h, hb, ih]

theorem lookup_setdefaultAppend_other (m : List (String × List Ctx))
    (k k2 : String) (c : Ctx) (h : k2 ≠ k) :
    (setdefaultAppend m k c).lookup k2 = m.lookup k2 := by
  induction m with
  | nil =>
    simp [setdefaultAppend, List.lookup, beq_eq_false_iff_ne.mpr h]
  | cons kv rest ih =>
    obtain ⟨k0, l⟩ := kv
    by_cases h0 : k0 = k
    · subst h0
      simp [setdefaultAppend, List.lookup, beq_eq_false_iff_ne.mpr h]
    · simp [setdefaultAppend, List.lookup, h0, ih]

theorem extendBucket_nil (o : Option (List Ctx)) : extendBucket o [] = o := by
  cases o <;> simp [extendBucket]

theorem extendBucket_some (b : List Ctx) (xs : List Ctx) :
    extendBucket (some b) xs = some (b ++ xs) := by
  cases xs <;> simp [extendBucket]

theorem extendBucket_snoc (o : Option (List Ctx)) (c : Ctx) (xs : List Ctx) :
    extendBucket (some (o.getD [] ++ [c])) xs = extendBucket o (c :: xs) := by
  cases o <;> simp [extendBucket]

theorem extendBucket_none_cons (c : Ctx) (xs : List Ctx) :
    extendBucket none (c :: xs) = some (c :: xs) := by
  simp [extendBucket]

theorem discoverLoop_ok_lookup (files : List (String × Ctx)) :
    ∀ (acc res : List (String × List Ctx)),
      discoverLoop files acc = .ok res →
      (∀ f ∈ files, dirname f.1 ≠ "__all__") →
      ∀ k, res.lookup k
        = extendBucket (acc.lookup k)
            ((files.filter (belongsTo k)).map (fun f => f.2)) := by
  induction files with
  | nil =>
    intro acc res hok _ k
    have h2 : Except.ok (ε := String) acc = Except.ok res := hok
    rw [← Except.ok.inj h2]
    simp [extendBucket_nil]
  | cons fc rest ih =>
    intro acc res hok hd k
    obtain ⟨p, c⟩ := fc
    cases hchk : checkRequired p c with
    | error e =>
      simp only [discoverLoop, hchk] at hok
      exact absurd hok (by simp)
    | ok u =>
      simp only [discoverLoop, hchk] at hok
      have hd2 : ∀ f ∈ rest, dirname f.1 ≠ "__all__" :=
        fun f hf => hd f (List.mem_cons_of_mem _ hf)
      have hdp : dirname p ≠ "__all__" := hd (p, c) (List.mem_cons_self _ _)
      rw [ih _ res hok hd2 k, List.filter_cons]
      by_cases hb : belongsTo k (p, c) = true
      · rw [if_pos hb, List.map_cons]
        by_cases hka : k = "__all__"
        · subst hka
          rw [lookup_setdefaultAppend_other _ (dirname p) "__all__" c
            (Ne.symm hdp)]
          rw [lookup_setdefaultAppend_self acc "__all__" c]
          exact extendBucket_snoc (acc.lookup "__all__") c _
        · have hpk : dirname p = k := by
            rw [belongsTo] at hb
            have hf : (k == "__all__") = false := beq_eq_false_iff_ne.mpr hka
            rw [hf] at hb
            simp at hb
            exact hb
          rw [← hpk, lookup_setdefaultAppend_self _ (dirname p) c]
          rw [lookup_setdefaultAppend_other acc "__all__" (dirname p) c
            (hpk ▸ hka)]
          exact extendBucket_snoc (acc.lookup (dirname p)) c _
      · rw [if_neg hb]
        rw [belongsTo] at hb
        simp only [Bool.or_eq_true, not_or] at hb
        have hka : k ≠ "__all__" := by
          intro he
          exact hb.1 (by rw [he]; exact beq_self_eq_true _)
        have hpk : dirname p ≠ k := by
          intro he
          exact hb.2 (by rw [he]; exact beq_self_eq_true _)
        rw [lookup_setdefaultAppend_other _ (dirname p) k c
          (fun he => hpk he.symm)]
        rw [lookup_setdefaultAppend_other acc "__all__" k c hka]

theorem lookup_map_sort (m : List (String × List Ctx)) (k : String) :
    (m.map (fun kv => (kv.1, sortByCreatedDesc kv.2))).lookup k
      = (m.lookup k).map sortByCreatedDesc := by
  induction m with
  | nil => rfl
  | cons kv rest ih =>
    obtain ⟨k0, l⟩ := kv
    cases hb : (k == k0)
    · simp [List.lookup, hb, ih]
    · simp [List.lookup, hb]

theorem discover_ok_lookup (files : List (String × Ctx))
    (coll : List (String × List Ctx))
    (hok : discover_blog_posts files = .ok coll)
    (hd : ∀ f ∈ files, dirname f.1 ≠ "__all__") :
    ∀ k, coll.lookup k
      = (extendBucket (if k = "__all__" then some [] else none)
          ((files.filter (belongsTo k)).map (fun f => f.2))).map
          sortByCreatedDesc := by
  intro k
  rw [discover_blog_posts] at hok
  cases hloop : discoverLoop files [("__all__", [])] with
  | error e =>
    rw [hloop] at hok
    exact absurd hok (by simp [Except.map])
  | ok res =>
    rw [hloop] at hok
    have hcoll : coll = res.map (fun kv => (kv.1, sortByCreatedDesc kv.2)) :=
      (Except.ok.inj hok).symm
    rw [hcoll, lookup_map_sort]
    rw [discoverLoop_ok_lookup files _ res hloop hd k]
    congr 1
    by_cases hk : k = "__all__"
    · subst hk
      simp [List.lookup]
    · simp [List.lookup, beq_eq_false_iff_ne.mpr hk, hk]

/-! ### Stability of the descending sort -/

theorem pyCharsLe_refl (x : List Nat) : pyCharsLe x x = true := by
  induction x with
  | nil => rfl
  | cons c cs ih =>
    rw [pyCharsLe, if_neg (lt_irrefl c), if_neg (lt_irrefl c)]
    exact ih

theorem filter_orderedInsert (k : String) (x : Ctx) (s : List Ctx) :
    (s.orderedInsert createdDesc x).filter (fun y => ckey y == k)
      = if ckey x == k then x :: s.filter (fun y => ckey y == k)
        else s.filter (fun y => ckey y == k) := by
  induction s with
  | nil =>
    by_cases hx : (ckey x == k) = true
    · have hxe : ckey x = k := by simpa using hx
      simp [List.orderedInsert, List.filter, hx, hxe]
    · have hb : (ckey x == k) = false := by simpa using hx
      have hxe : ckey x ≠ k := beq_eq_false_iff_ne.mp hb
      simp [List.orderedInsert, List.filter, hb, hxe]
  | cons y t ih =>
    rw [List.orderedInsert]
    by_cases hr : createdDesc x y
    · rw [if_pos hr]
      by_cases hx : (ckey x == k) = true <;>
        by_cases hy : (ckey y == k) = true <;>
          simp [List.filter_cons, hx, hy]
    · rw [if_neg hr]
      by_cases hx : (ckey x == k) = true
      · have hxk : ckey x = k := by simpa using hx
        have hy : (ckey y == k) = false := by
          rw [beq_eq_false_iff_ne]
          intro he
          apply hr
          rw [createdDesc, ckeyCodes, ckeyCodes]
          rw [show ckey y = ckey x from by rw [he, hxk]]
          exact pyCharsLe_refl _
        simp [List.filter_cons, hy, ih, hx]
      · simp [List.filter_cons, ih, hx]

theorem filter_sortByCreatedDesc (k : String) (l : List Ctx) :
    (sortByCreatedDesc l).filter (fun y => ckey y == k)
      = l.filter (fun y => ckey y == k) := by
  induction l with
  | nil => rfl
  | cons x t ih =>
    rw [sortByCreatedDesc, List.insertionSort, filter_orderedInsert k x _]
    rw [sortByCreatedDesc] at ih
    by_cases hx : (ckey x == k) = true <;> simp [List.filter_cons, hx, ih]

theorem sorted_sortByCreatedDesc (l : List Ctx) :
    List.Sorted createdDesc (sortByCreatedDesc l) :=
  List.sorted_insertionSort createdDesc l

theorem perm_sortByCreatedDesc (l : List Ctx) :
    (sortByCreatedDesc l).Perm l :=
  List.perm_insertionSort createdDesc l

/-! ### Claim theorems -/

/-- Claim C1 (code_bug evidence): `_rst_j2context` is not memoized.  The
computed context is never stored into `_rst_j2context_cache`, so starting
from the empty cache, two consecutive calls on the same path each perform
the read-and-convert work (work counter 1 both times, total 2 rather than
at most 1), even though both calls return the same value; the cache is
still empty after the first call. -/
theorem rst_j2context_recomputes (env : ExtractorEnv) (src p : String) :
    (rst_j2context env src [] p).2.2 = 1
    ∧ (rst_j2context env src [] p).2.1 = []
    ∧ (rst_j2context env src ((rst_j2context env src [] p).2.1) p).2.2 = 1
    ∧ (rst_j2context env src ((rst_j2context env src [] p).2.1) p).1
        = (rst_j2context env src [] p).1 := by
  cases h : feedMeta (env.tokenize (env.publishMeta (env.readFile p) p)) <;>
    simp [rst_j2context, h]

/-- Claim C3 (counterexample): a blog document named `index.rst` does not
get the slash-terminated directory href `/blog/2024/` claimed by the spec;
`_href` only takes the directory branch for the literal basename
`index.html`. -/
theorem href_index_rst_cex :
    href "/base/src" "/base/src/blog/2024/index.rst" ≠ "/blog/2024/" := by
  decide

/-- Claim C3 (amended): stripping the source-root prefix and swapping the
extension to `.html` applies to every document whose basename is not
literally `index.html` — including `index.rst`, which therefore yields
`/blog/2024/index.html` rather than the directory href.  The general
conjunct covers any path `src ++ rel` in which the source root occurs only
as the prefix and the extension only as the suffix. -/
theorem href_derivation_amended :
    href "/base/src" "/base/src/blog/2024/hello.rst" = "/blog/2024/hello.html"
    ∧ href "/base/src" "/base/src/blog/2024/index.rst"
        = "/blog/2024/index.html"
    ∧ (∀ src rel stem : String,
        basename (src ++ rel) ≠ "index.html" →
        src.toList ≠ [] →
        noListOccur src.toList rel.toList →
        rel = stem ++ splitextExt (src ++ rel) →
        (splitextExt (src ++ rel)).toList ≠ [] →
        (∀ i, i < stem.toList.length →
          (splitextExt (src ++ rel)).toList.isPrefixOf
            ((stem.toList ++ (splitextExt (src ++ rel)).toList).drop i)
            = false) →
        href src (src ++ rel) = stem ++ ".html") := by
  refine ⟨by decide, by decide, ?_⟩
  intro src rel stem h1 h2 h3 h4 h5 h6
  rw [href, if_neg h1, pyReplace_of_prefix src rel "" h2 h3]
  have hempty : ("" : String) ++ rel = rel := by
    apply String.ext
    simp [String.data_append]
  rw [hempty]
  set e := splitextExt (src ++ rel) with he
  rw [h4]
  exact pyReplace_of_suffix stem e ".html" h5 h6

/-- Claim C3 (witness for the amended general conjunct): a concrete
non-index document gets the prefix-stripped, extension-swapped href. -/
theorem href_derivation_amended_witness :
    href "/s" ("/s" ++ "/a/hello.rst") = "/a/hello" ++ ".html" :=
  href_derivation_amended.2.2 "/s" "/a/hello.rst" "/a/hello"
    (by decide) (by decide) (by decide) (by decide) (by decide) (by decide)

/-- Claim C9: classification of walked files is total into the four
classes, with precedence `templates/` > `static/` > underscore-partial >
`blog/` > plain document; in particular `templates/` always wins, and a
path under `static/` is a static asset even when its filename starts with
an underscore and ends in `.html`. -/
theorem classification_totality_precedence :
    (∀ rel file : String,
      classify rel file = .Partial ∨ classify rel file = .StaticAsset
      ∨ classify rel file = .BlogDocument ∨ classify rel file = .Document)
    ∧ (∀ rel file, pyStartsWith rel "templates/" = true →
        classify rel file = .Partial)
    ∧ (∀ rel file, pyStartsWith rel "templates/" = false →
        pyStartsWith rel "static/" = true →
        classify rel file = .StaticAsset)
    ∧ (∀ rel file, pyStartsWith rel "templates/" = false →
        pyStartsWith rel "static/" = false →
        pyStartsWith file "_" = true → pyEndsWith file ".html" = true →
        classify rel file = .Partial)
    ∧ (∀ rel file, pyStartsWith rel "templates/" = false →
        pyStartsWith rel "static/" = false →
        (pyStartsWith file "_" && pyEndsWith file ".html") = false →
        pyStartsWith rel "blog/" = true →
        classify rel file = .BlogDocument)
    ∧ (∀ rel file, pyStartsWith rel "templates/" = false →
        pyStartsWith rel "static/" = false →
        (pyStartsWith file "_" && pyEndsWith file ".html") = false →
        pyStartsWith rel "blog/" = false →
        classify rel file = .Document) := by
  refine ⟨?_, ?_, ?_, ?_, ?_, ?_⟩
  · intro rel file
    unfold classify
    split_ifs <;> tauto
  · intro rel file h1
    simp [classify, h1]
  · intro rel file h1 h2
    simp [classify, h1, h2]
  · intro rel file h1 h2 h3 h4
    simp [classify, h1, h2, h3, h4]
  · intro rel file h1 h2 h3 h4
    simp [classify, h1, h2, h3, h4]
  · intro rel file h1 h2 h3 h4
    simp [classify, h1, h2, h3, h4]

/-- Claim C9 (witness): a file under `static/` whose name starts with an
underscore and ends in `.html` is classified as a static asset, not a
partial. -/
theorem classification_totality_precedence_witness :
    classify "static/_a.html" "_a.html" = .StaticAsset :=
  classification_totality_precedence.2.2.1 "static/_a.html" "_a.html"
    (by decide) (by decide)

/-- Claim C10: `dict.update` merges shallowly, so a user configuration
with a top-level `blog` key replaces the entire default blog
sub-configuration; a user config that sets only `blog.posts_per_page`
leaves `post_template` and `feeds` undefined under `blog`. -/
theorem shallow_blog_config_merge :
    (∀ (basedir : String) (user : List (String × CVal)) (v : CVal),
      (user.map Prod.fst).Nodup →
      cfgLookup "blog" user = some v →
      cfgLookup "blog" (websiteConfig basedir user) = some v)
    ∧ (∀ (basedir : String) (ppp : Nat),
      cfgLookup "blog" (websiteConfig basedir
        [("blog", CVal.dict [("posts_per_page", CVal.nat ppp)])])
        = some (CVal.dict [("posts_per_page", CVal.nat ppp)]))
    ∧ (∀ ppp : Nat,
      cfgLookup "post_template" [("posts_per_page", CVal.nat ppp)] = none
      ∧ cfgLookup "feeds" [("posts_per_page", CVal.nat ppp)] = none) := by
  refine ⟨?_, ?_, ?_⟩
  · intro basedir user v hnd hu
    rw [websiteConfig]
    exact cfgUpdate_lookup user (defaultConfig basedir) "blog" v hnd hu
  · intro basedir ppp
    rfl
  · intro ppp
    exact ⟨rfl, rfl⟩

/-- Claim C10 (witness): a concrete user configuration with a `blog` key
replaces the default blog sub-configuration wholesale. -/
theorem shallow_blog_config_merge_witness :
    cfgLookup "blog" (websiteConfig "/b" [("blog", CVal.str "X")])
      = some (CVal.str "X") :=
  shallow_blog_config_merge.1 "/b" [("blog", CVal.str "X")] (CVal.str "X")
    (by simp) rfl

/-- Claim C7: a metadata block whose token stream contains two or more
`meta` elements carrying the same `name` attribute (with a `content`
attribute present, even if the contents are identical) makes the metadata
parse fail with a `ValueError` instead of producing a mapping. -/
theorem duplicate_meta_key_errors (events : List TagEvent) (n : String)
    (hdup : 2 ≤ events.countP (isMetaNamed n)) :
    ∃ e, feedMeta events = .error e := by
  cases h : feedMeta events with
  | error e => exact ⟨e, rfl⟩
  | ok res =>
    have hle := (feedAux_ok_count events [] res h n).2
    omega

/-- Claim C7 (witness): two `meta` tags with the same name and identical
content make the parse fail. -/
theorem duplicate_meta_key_errors_witness :
    ∃ e, feedMeta
      [⟨"meta", [("name", some "a"), ("content", some "x")]⟩,
       ⟨"meta", [("name", some "a"), ("content", some "x")]⟩] = .error e :=
  duplicate_meta_key_errors
    [⟨"meta", [("name", some "a"), ("content", some "x")]⟩,
     ⟨"meta", [("name", some "a"), ("content", some "x")]⟩] "a" (by decide)

/-- Claim C6: if any walked blog file's context lacks `created_at` or
`title`, the whole aggregation fails: `discover_blog_posts` returns an
error whose message names an offending source file and its missing key
(`created_at` or `title`), and no collection is returned. -/
theorem missing_required_metadata_aborts (files : List (String × Ctx))
    (h : ∃ f ∈ files, ctxHasKey f.2 "created_at" = false
      ∨ ctxHasKey f.2 "title" = false) :
    ∃ file key, (∃ c, (file, c) ∈ files ∧ ctxHasKey c key = false)
      ∧ (key = "created_at" ∨ key = "title")
      ∧ discover_blog_posts files = .error (reqKeyMsg file key) := by
  obtain ⟨file, key, hin, hkey, hloop⟩ :=
    discoverLoop_error_of_missing files [("__all__", [])] h
  refine ⟨file, key, hin, hkey, ?_⟩
  rw [discover_blog_posts, hloop]
  rfl

/-- Claim C6 (witness): a blog file missing `title` aborts aggregation
with an error naming the file and the key. -/
theorem missing_required_metadata_aborts_witness :
    ∃ file key,
      (∃ c, (file, c) ∈
        [("/s/blog/a/x.rst",
          (⟨[("created_at", "2024-01-01")], "b", "/blog/a/x.html"⟩ : Ctx))]
        ∧ ctxHasKey c key = false)
      ∧ (key = "created_at" ∨ key = "title")
      ∧ discover_blog_posts
          [("/s/blog/a/x.rst",
            (⟨[("created_at", "2024-01-01")], "b", "/blog/a/x.html"⟩ : Ctx))]
          = .error (reqKeyMsg file key) :=
  missing_required_metadata_aborts
    [("/s/blog/a/x.rst",
      (⟨[("created_at", "2024-01-01")], "b", "/blog/a/x.html"⟩ : Ctx))]
    (by decide)

/-- Claim C2: for every post list and page size `p > 0`, the paginator
produces `ceil(N/p)` pages over the `N` drafts-filtered posts (or exactly
one empty page when the filtered collection is empty), concatenating the
pages in order reproduces the filtered input sequence (so every filtered
post appears, in the input's order), every page except possibly the last
has exactly `p` posts, and a post occurring exactly once in the filtered
input occurs in exactly one page. -/
theorem pagination_completeness (posts : List Ctx) (n : Nat) (hn : 0 < n) :
    (posts.filter nonDraft = [] → feedPages n posts = [[]])
    ∧ (posts.filter nonDraft ≠ [] →
        (feedPages n posts).length
          = ((posts.filter nonDraft).length + n - 1) / n)
    ∧ (feedPages n posts).flatten = posts.filter nonDraft
    ∧ (∀ i, i + 1 < (feedPages n posts).length →
        ∀ page, (feedPages n posts).get? i = some page → page.length = n)
    ∧ (∀ c : Ctx, (posts.filter nonDraft).count c = 1 →
        (feedPages n posts).countP (fun page => decide (c ∈ page)) = 1) := by
  have hflat : (feedPages n posts).flatten = posts.filter nonDraft := by
    by_cases hf : posts.filter nonDraft = []
    · simp [feedPages, paginate, hf, chunkList_nil]
    · have hne : chunkList n (posts.filter nonDraft) ≠ [] := by
        rw [chunkList_cons n _ (by omega) hf]
        exact List.cons_ne_nil _ _
      simp only [feedPages, paginate, if_neg hne]
      exact chunkList_flatten n hn _
  refine ⟨?_, ?_, hflat, ?_, ?_⟩
  · intro hf
    simp [feedPages, paginate, hf, chunkList_nil]
  · intro hf
    have hne : chunkList n (posts.filter nonDraft) ≠ [] := by
      rw [chunkList_cons n _ (by omega) hf]
      exact List.cons_ne_nil _ _
    simp only [feedPages, paginate, if_neg hne]
    exact chunkList_length_eq n hn _ hf
  · intro i hi page hpage
    by_cases hf : posts.filter nonDraft = []
    · simp [feedPages, paginate, hf, chunkList_nil] at hi
    · have hne : chunkList n (posts.filter nonDraft) ≠ [] := by
        rw [chunkList_cons n _ (by omega) hf]
        exact List.cons_ne_nil _ _
      simp only [feedPages, paginate, if_neg hne] at hi hpage
      exact chunkList_get?_length n hn _ i hi page hpage
  · intro c hc
    apply countP_mem_of_flatten_count_one
    rw [hflat]
    exact hc

/-- Claim C2 (witness): three concrete posts with page size two produce
two pages whose concatenation is the input, with the first page full. -/
theorem pagination_completeness_witness :
    (([(⟨[("created_at", "2024-01-03")], "3", "/blog/c.html"⟩ : Ctx),
       ⟨[("created_at", "2024-01-02")], "2", "/blog/b.html"⟩,
       ⟨[("created_at", "2024-01-01")], "1", "/blog/a.html"⟩].filter nonDraft
        = []) →
      feedPages 2
        [⟨[("created_at", "2024-01-03")], "3", "/blog/c.html"⟩,
         ⟨[("created_at", "2024-01-02")], "2", "/blog/b.html"⟩,
         ⟨[("created_at", "2024-01-01")], "1", "/blog/a.html"⟩] = [[]])
    ∧ (([(⟨[("created_at", "2024-01-03")], "3", "/blog/c.html"⟩ : Ctx),
       ⟨[("created_at", "2024-01-02")], "2", "/blog/b.html"⟩,
       ⟨[("created_at", "2024-01-01")], "1", "/blog/a.html"⟩].filter nonDraft
        ≠ []) →
      (feedPages 2
        [⟨[("created_at", "2024-01-03")], "3", "/blog/c.html"⟩,
         ⟨[("created_at", "2024-01-02")], "2", "/blog/b.html"⟩,
         ⟨[("created_at", "2024-01-01")], "1", "/blog/a.html"⟩]).length
        = (([(⟨[("created_at", "2024-01-03")], "3", "/blog/c.html"⟩ : Ctx),
       ⟨[("created_at", "2024-01-02")], "2", "/blog/b.html"⟩,
       ⟨[("created_at", "2024-01-01")], "1", "/blog/a.html"⟩].filter
          nonDraft).length + 2 - 1) / 2)
    ∧ (feedPages 2
        [⟨[("created_at", "2024-01-03")], "3", "/blog/c.html"⟩,
         ⟨[("created_at", "2024-01-02")], "2", "/blog/b.html"⟩,
         ⟨[("created_at", "2024-01-01")], "1", "/blog/a.html"⟩]).flatten
        = [⟨[("created_at", "2024-01-03")], "3", "/blog/c.html"⟩,
           ⟨[("created_at", "2024-01-02")], "2", "/blog/b.html"⟩,
           ⟨[("created_at", "2024-01-01")], "1", "/blog/a.html"⟩].filter
            nonDraft
    ∧ (∀ i, i + 1 < (feedPages 2
        [⟨[("created_at", "2024-01-03")], "3", "/blog/c.html"⟩,
         ⟨[("created_at", "2024-01-02")], "2", "/blog/b.html"⟩,
         ⟨[("created_at", "2024-01-01")], "1", "/blog/a.html"⟩]).length →
        ∀ page, (feedPages 2
          [⟨[("created_at", "2024-01-03")], "3", "/blog/c.html"⟩,
           ⟨[("created_at", "2024-01-02")], "2", "/blog/b.html"⟩,
           ⟨[("created_at", "2024-01-01")], "1", "/blog/a.html"⟩]).get? i
          = some page → page.length = 2)
    ∧ (∀ c : Ctx,
        ([(⟨[("created_at", "2024-01-03")], "3", "/blog/c.html"⟩ : Ctx),
          ⟨[("created_at", "2024-01-02")], "2", "/blog/b.html"⟩,
          ⟨[("created_at", "2024-01-01")], "1", "/blog/a.html"⟩].filter
            nonDraft).count c = 1 →
        (feedPages 2
          [⟨[("created_at", "2024-01-03")], "3", "/blog/c.html"⟩,
           ⟨[("created_at", "2024-01-02")], "2", "/blog/b.html"⟩,
           ⟨[("created_at", "2024-01-01")], "1", "/blog/a.html"⟩]).countP
            (fun page => decide (c ∈ page)) = 1) :=
  pagination_completeness
    [⟨[("created_at", "2024-01-03")], "3", "/blog/c.html"⟩,
     ⟨[("created_at", "2024-01-02")], "2", "/blog/b.html"⟩,
     ⟨[("created_at", "2024-01-01")], "1", "/blog/a.html"⟩] 2 (by decide)

/-- Claim C4: for every configured feed, `generate_blog_feeds` writes to
`outRoot/feedPath/index{ext}` exactly the data it writes to that feed's
page-1 file `outRoot/feedPath/1{ext}`, and an index write only ever
happens during the `page_num == 1` iteration. -/
theorem index_duplication (render : String → PageCtx → String)
    (out_path : String) (feeds : List FeedCfg) (n : Nat)
    (allPosts : List Ctx) :
    (∀ w ∈ generate_blog_feeds render out_path feeds n allPosts,
      w.windex = true → w.wpage = 1)
    ∧ ∀ feed ∈ feeds, ∃ d : String,
      (⟨joinPath (joinPath out_path feed.path)
          ("1" ++ splitextExt feed.template), d, 1, false⟩ : WriteRec)
        ∈ generate_blog_feeds render out_path feeds n allPosts
      ∧ (⟨joinPath (joinPath out_path feed.path)
          ("index" ++ splitextExt feed.template), d, 1, true⟩ : WriteRec)
        ∈ generate_blog_feeds render out_path feeds n allPosts := by
  constructor
  · intro w hw hidx
    obtain ⟨ip, _hip, hw2⟩ := List.mem_flatMap.mp hw
    obtain ⟨feed, _hfeed, hw3⟩ := List.mem_flatMap.mp hw2
    rcases List.mem_cons.mp hw3 with he | hm
    · rw [he] at hidx
      simp at hidx
    · by_cases hpn : ip.1 + 1 = 1
      · rw [if_pos hpn] at hm
        rcases List.mem_cons.mp hm with he2 | h0
        · rw [he2]
          exact hpn
        · simp at h0
      · rw [if_neg hpn] at hm
        simp at hm
  · intro feed hfeed
    have hnn : feedPages n allPosts ≠ [] :=
      paginate_ne_nil n (allPosts.filter nonDraft)
    obtain ⟨p0, rest, hp⟩ := List.exists_cons_of_ne_nil hnn
    refine ⟨render feed.template
      ⟨1, (feedPages n allPosts).length, p0, "__all__"⟩, ?_, ?_⟩
    · apply List.mem_flatMap.mpr
      refine ⟨(0, p0), ?_, ?_⟩
      · rw [hp, List.enum_cons]
        exact List.mem_cons_self _ _
      · apply List.mem_flatMap.mpr
        refine ⟨feed, hfeed, ?_⟩
        show _ ∈ _ :: _
        exact List.mem_cons.mpr (Or.inl (by norm_num <;> rfl))
    · apply List.mem_flatMap.mpr
      refine ⟨(0, p0), ?_, ?_⟩
      · rw [hp, List.enum_cons]
        exact List.mem_cons_self _ _
      · apply List.mem_flatMap.mpr
        refine ⟨feed, hfeed, ?_⟩
        show _ ∈ _ :: _
        refine List.mem_cons.mpr (Or.inr ?_)
        show _ ∈ (if (0 : Nat) + 1 = 1 then _ else [])
        rw [if_pos rfl]
        exact List.mem_cons.mpr (Or.inl (by norm_num <;> rfl))

/-- Claim C4 (witness): with one concrete feed, the page-1 write and the
index write carry the same rendered data. -/
theorem index_duplication_witness :
    ∃ d : String,
      (⟨joinPath (joinPath "/out" "blog/feed") ("1" ++ splitextExt
          "templates/_blog_feed.xml"), d, 1, false⟩ : WriteRec)
        ∈ generate_blog_feeds (fun t c => t ++ toString c.page_num) "/out"
            [⟨"templates/_blog_feed.xml", "blog/feed"⟩] 4 []
      ∧ (⟨joinPath (joinPath "/out" "blog/feed") ("index" ++ splitextExt
          "templates/_blog_feed.xml"), d, 1, true⟩ : WriteRec)
        ∈ generate_blog_feeds (fun t c => t ++ toString c.page_num) "/out"
            [⟨"templates/_blog_feed.xml", "blog/feed"⟩] 4 [] :=
  (index_duplication (fun t c => t ++ toString c.page_num) "/out"
    [⟨"templates/_blog_feed.xml", "blog/feed"⟩] 4 []).2
    ⟨"templates/_blog_feed.xml", "blog/feed"⟩ (List.mem_cons_self _ _)

/-- Claim C5: a post whose context maps `draft` to a truthy value appears
in no paginated feed page, but it does appear in the `__all__` list of the
collection returned by `discover_blog_posts` (the draft filter runs after
aggregation, not during it). -/
theorem draft_exclusion (c : Ctx) (hc : truthy (ctxGet c "draft") = true) :
    (∀ (posts : List Ctx) (n : Nat), ∀ page ∈ feedPages n posts, c ∉ page)
    ∧ (∀ (files : List (String × Ctx)) (coll : List (String × List Ctx))
        (p : String),
        (∀ f ∈ files, dirname f.1 ≠ "__all__") →
        discover_blog_posts files = .ok coll → (p, c) ∈ files →
        ∃ allPosts, coll.lookup "__all__" = some allPosts ∧ c ∈ allPosts) := by
  constructor
  · intro posts n page hpage hcpage
    by_cases hch : chunkList n (posts.filter nonDraft) = []
    · simp only [feedPages, paginate, if_pos hch] at hpage
      have hpe : page = [] := by simpa using hpage
      rw [hpe] at hcpage
      simp at hcpage
    · simp only [feedPages, paginate, if_neg hch] at hpage
      have hcf : c ∈ posts.filter nonDraft :=
        chunkList_mem_mem n _ page hpage c hcpage
      have hnd := (List.mem_filter.mp hcf).2
      rw [nonDraft, hc] at hnd
      simp at hnd
  · intro files coll p hd hok hmem
    have hall := discover_ok_lookup files coll hok hd "__all__"
    rw [if_pos rfl] at hall
    have hfilter : files.filter (belongsTo "__all__") = files := by
      apply List.filter_eq_self.mpr
      intro f _
      rw [belongsTo]
      simp
    rw [hfilter, extendBucket_some] at hall
    refine ⟨sortByCreatedDesc (files.map (fun f => f.2)), ?_, ?_⟩
    · rw [hall]
      simp
    · rw [sortByCreatedDesc, List.mem_insertionSort]
      exact List.mem_map_of_mem (fun f => f.2) hmem

/-- Claim C5 (witness): a concrete draft post is excluded from every feed
page but present in the aggregated `__all__` list. -/
theorem draft_exclusion_witness :
    (∀ (posts : List Ctx) (n : Nat), ∀ page ∈ feedPages n posts,
      (⟨[("created_at", "2024-01-02"), ("title", "d"), ("draft", "true")],
        "bd", "/blog/a/d.html"⟩ : Ctx) ∉ page)
    ∧ (∀ (files : List (String × Ctx)) (coll : List (String × List Ctx))
        (p : String),
        (∀ f ∈ files, dirname f.1 ≠ "__all__") →
        discover_blog_posts files = .ok coll →
        (p, (⟨[("created_at", "2024-01-02"), ("title", "d"),
          ("draft", "true")], "bd", "/blog/a/d.html"⟩ : Ctx)) ∈ files →
        ∃ allPosts, coll.lookup "__all__" = some allPosts
          ∧ (⟨[("created_at", "2024-01-02"), ("title", "d"),
              ("draft", "true")], "bd", "/blog/a/d.html"⟩ : Ctx) ∈ allPosts) :=
  draft_exclusion
    ⟨[("created_at", "2024-01-02"), ("title", "d"), ("draft", "true")],
      "bd", "/blog/a/d.html"⟩ (by decide)

/-- Claim C8: on successful aggregation, every bucket of the returned
collection is sorted by `created_at` descending with equal keys keeping
their discovery order (the filter characterization of a stable sort); the
`__all__` bucket is a permutation of the sequence of all discovered
records (each record exactly once, up to multiplicity); and the
per-directory buckets partition `__all__` by each record's immediate
parent directory: the bucket for `d` holds exactly the records of the
files whose `dirname` is `d`, and is absent when no file has parent `d`. -/
theorem blog_collection_invariant (files : List (String × Ctx))
    (coll : List (String × List Ctx))
    (hd : ∀ f ∈ files, dirname f.1 ≠ "__all__")
    (hok : discover_blog_posts files = .ok coll) :
    (∃ allPosts, coll.lookup "__all__" = some allPosts
      ∧ allPosts.Perm (files.map (fun f => f.2))
      ∧ List.Sorted createdDesc allPosts
      ∧ ∀ k : String, allPosts.filter (fun y => ckey y == k)
          = (files.map (fun f => f.2)).filter (fun y => ckey y == k))
    ∧ (∀ d : String, d ≠ "__all__" →
        (files.filter (fun f => dirname f.1 == d) = [] →
          coll.lookup d = none)
        ∧ ∀ bucket, coll.lookup d = some bucket →
            bucket.Perm
              ((files.filter (fun f => dirname f.1 == d)).map (fun f => f.2))
            ∧ List.Sorted createdDesc bucket
            ∧ ∀ k : String, bucket.filter (fun y => ckey y == k)
                = ((files.filter (fun f => dirname f.1 == d)).map
                    (fun f => f.2)).filter (fun y => ckey y == k)) := by
  constructor
  · have hall := discover_ok_lookup files coll hok hd "__all__"
    rw [if_pos rfl] at hall
    have hfilter : files.filter (belongsTo "__all__") = files := by
      apply List.filter_eq_self.mpr
      intro f _
      rw [belongsTo]
      simp
    rw [hfilter, extendBucket_some] at hall
    refine ⟨sortByCreatedDesc (files.map (fun f => f.2)), ?_,
      perm_sortByCreatedDesc _, sorted_sortByCreatedDesc _,
      fun k => filter_sortByCreatedDesc k _⟩
    rw [hall]
    simp
  · intro d hdall
    have hb := discover_ok_lookup files coll hok hd d
    rw [if_neg hdall] at hb
    have hbel : files.filter (belongsTo d)
        = files.filter (fun f => dirname f.1 == d) := by
      apply List.filter_congr
      intro f _
      rw [belongsTo, beq_eq_false_iff_ne.mpr hdall]
      simp
    rw [hbel] at hb
    constructor
    · intro hempty
      rw [hempty] at hb
      simp only [List.map_nil, extendBucket_nil, Option.map_none'] at hb
      exact hb
    · intro bucket hbucket
      rw [hbucket] at hb
      cases hxs : (files.filter (fun f => dirname f.1 == d)).map
          (fun f => f.2) with
      | nil =>
        rw [hxs, extendBucket_nil] at hb
        simp at hb
      | cons c0 xs0 =>
        rw [hxs, extendBucket_none_cons] at hb
        simp only [Option.map_some'] at hb
        have hbe : bucket = sortByCreatedDesc (c0 :: xs0) := Option.some.inj hb
        rw [hbe, ← hxs]
        exact ⟨perm_sortByCreatedDesc _, sorted_sortByCreatedDesc _,
          fun k => filter_sortByCreatedDesc k _⟩

/-- Claim C8 (witness): a concrete two-directory blog tree aggregates into
sorted, partitioned buckets. -/
theorem blog_collection_invariant_witness :
    (∃ allPosts,
      (List.lookup "__all__"
        [("__all__",
          [(⟨[("created_at", "2024-02-02"), ("title", "b")], "b2",
             "/blog/b/p2.html"⟩ : Ctx),
           ⟨[("created_at", "2024-01-01"), ("title", "a")], "b1",
             "/blog/a/p1.html"⟩]),
         ("/s/blog/a",
          [⟨[("created_at", "2024-01-01"), ("title", "a")], "b1",
             "/blog/a/p1.html"⟩]),
         ("/s/blog/b",
          [⟨[("created_at", "2024-02-02"), ("title", "b")], "b2",
             "/blog/b/p2.html"⟩])]) = some allPosts
      ∧ allPosts.Perm
          ([("/s/blog/a/p1.rst",
             (⟨[("created_at", "2024-01-01"), ("title", "a")], "b1",
               "/blog/a/p1.html"⟩ : Ctx)),
            ("/s/blog/b/p2.rst",
             ⟨[("created_at", "2024-02-02"), ("title", "b")], "b2",
               "/blog/b/p2.html"⟩)].map (fun f => f.2))
      ∧ List.Sorted createdDesc allPosts
      ∧ ∀ k : String, allPosts.filter (fun y => ckey y == k)
          = ([("/s/blog/a/p1.rst",
             (⟨[("created_at", "2024-01-01"), ("title", "a")], "b1",
               "/blog/a/p1.html"⟩ : Ctx)),
             ("/s/blog/b/p2.rst",
             ⟨[("created_at", "2024-02-02"), ("title", "b")], "b2",
               "/blog/b/p2.html"⟩)].map (fun f => f.2)).filter
            (fun y => ckey y == k))
    ∧ (∀ d : String, d ≠ "__all__" →
        (([("/s/blog/a/p1.rst",
            (⟨[("created_at", "2024-01-01"), ("title", "a")], "b1",
              "/blog/a/p1.html"⟩ : Ctx)),
           ("/s/blog/b/p2.rst",
            ⟨[("created_at", "2024-02-02"), ("title", "b")], "b2",
              "/blog/b/p2.html"⟩)].filter (fun f => dirname f.1 == d) = [] →
          (List.lookup d
            [("__all__",
              [(⟨[("created_at", "2024-02-02"), ("title", "b")], "b2",
                 "/blog/b/p2.html"⟩ : Ctx),
               ⟨[("created_at", "2024-01-01"), ("title", "a")], "b1",
                 "/blog/a/p1.html"⟩]),
             ("/s/blog/a",
              [⟨[("created_at", "2024-01-01"), ("title", "a")], "b1",
                 "/blog/a/p1.html"⟩]),
             ("/s/blog/b",
              [⟨[("created_at", "2024-02-02"), ("title", "b")], "b2",
                 "/blog/b/p2.html"⟩])]) = none))
        ∧ ∀ bucket,
            (List.lookup d
              [("__all__",
                [(⟨[("created_at", "2024-02-02"), ("title", "b")], "b2",
                   "/blog/b/p2.html"⟩ : Ctx),
                 ⟨[("created_at", "2024-01-01"), ("title", "a")], "b1",
                   "/blog/a/p1.html"⟩]),
               ("/s/blog/a",
                [⟨[("created_at", "2024-01-01"), ("title", "a")], "b1",
                   "/blog/a/p1.html"⟩]),
               ("/s/blog/b",
                [⟨[("created_at", "2024-02-02"), ("title", "b")], "b2",
                   "/blog/b/p2.html"⟩])]) = some bucket →
            bucket.Perm
              (([("/s/blog/a/p1.rst",
                  (⟨[("created_at", "2024-01-01"), ("title", "a")], "b1",
                    "/blog/a/p1.html"⟩ : Ctx)),
                 ("/s/blog/b/p2.rst",
                  ⟨[("created_at", "2024-02-02"), ("title", "b")], "b2",
                    "/blog/b/p2.html"⟩)].filter
                  (fun f => dirname f.1 == d)).map (fun f => f.2))
            ∧ List.Sorted createdDesc bucket
            ∧ ∀ k : String, bucket.filter (fun y => ckey y == k)
                = (([("/s/blog/a/p1.rst",
                     (⟨[("created_at", "2024-01-01"), ("title", "a")], "b1",
                       "/blog/a/p1.html"⟩ : Ctx)),
                    ("/s/blog/b/p2.rst",
                     ⟨[("created_at", "2024-02-02"), ("title", "b")], "b2",
                       "/blog/b/p2.html"⟩)].filter
                     (fun f => dirname f.1 == d)).map
                    (fun f => f.2)).filter (fun y => ckey y == k)) :=
  blog_collection_invariant
    [("/s/blog/a/p1.rst",
      ⟨[("created_at", "2024-01-01"), ("title", "a")], "b1",
        "/blog/a/p1.html"⟩),
     ("/s/blog/b/p2.rst",
      ⟨[("created_at", "2024-02-02"), ("title", "b")], "b2",
        "/blog/b/p2.html"⟩)]
    [("__all__",
      [⟨[("created_at", "2024-02-02"), ("title", "b")], "b2",
         "/blog/b/p2.html"⟩,
       ⟨[("created_at", "2024-01-01"), ("title", "a")], "b1",
         "/blog/a/p1.html"⟩]),
     ("/s/blog/a",
      [⟨[("created_at", "2024-01-01"), ("title", "a")], "b1",
         "/blog/a/p1.html"⟩]),
     ("/s/blog/b",
      [⟨[("created_at", "2024-02-02"), ("title", "b")], "b2",
         "/blog/b/p2.html"⟩])]
    (by decide) (by rfl)

end Funnel4
